import Mathlib

/-!
Shallow embedding of the `checksum` crate's concurrent multi-digest engine.

Conventions used throughout:
* a Rust `u8` byte is a `Nat` (reduced `% 256` wherever the arithmetic
  depends on the 8-bit width);
* a byte buffer (`&[u8]`, `Arc<[u8]>`) is a `List Nat`;
* machine integers are `Nat` with explicit bounds (`u32` values stay
  below `2 ^ 32`);
* a Rust `panic!`/`expect` failure is an `Option`/`Except` error value;
* the trusted external hashing primitives (OpenSSL's EVP contexts) are
  modelled by the bytes accumulated since the last initialisation,
  finalisation applying an arbitrary function `H` standing for the
  (pure, deterministic) hash mathematics, which the crate treats as an
  opaque trusted primitive.  zlib's `crc32` is small enough that it is
  modelled concretely (reflected polynomial `0xEDB88320`).
-/

namespace Checksum

/-- Byte buffers are lists of naturals. -/
abbrev Bytes := List Nat

/-- Largest `u32` value (`u32::MAX`). -/
def u32Max : Nat := 0xFFFFFFFF

/-- The reflected CRC-32 polynomial used by zlib's `crc32`. -/
def crcPoly : Nat := 0xEDB88320

/-- One bit-step of the (reflected) CRC-32 computation. -/
def crcBitStep (c : Nat) : Nat :=
  if c % 2 = 1 then (c / 2) ^^^ crcPoly else c / 2

/-- Folding one input byte into the running CRC-32 register. -/
def crcByteStep (c b : Nat) : Nat :=
  crcBitStep^[8] (c ^^^ (b % 256))

/-- Model of zlib's `crc32(crc, buf, len)` (the external primitive linked
from `libz`): pre- and post-conditioning with `0xFFFFFFFF` around a fold
of `crcByteStep` over the buffer. -/
def zlibCrc32 (crc : Nat) (buf : Bytes) : Nat :=
  (buf.foldl crcByteStep (crc ^^^ 0xFFFFFFFF)) ^^^ 0xFFFFFFFF

/-- State of the `CRC32` digest from `src/crc32.rs`: the running checksum
field `crc: u32`. -/
structure CRC32 where
  crc : Nat
deriving DecidableEq

/-- `CRC32::new` from `src/crc32.rs`: the checksum starts at 0. -/
def CRC32.new : CRC32 := ⟨0⟩

/-- `CRC32::update` from `src/crc32.rs`.  The source converts
`data.len()` to `u32` with `try_into().expect(..)` (panic when the data
is longer than `u32::MAX`), calls zlib's `crc32`, and converts the
returned `c_ulong` back to `u32` with a second `try_into().expect(..)`.
Both panics are modelled as `none`. -/
def CRC32.update (s : CRC32) (data : Bytes) : Option CRC32 :=
  if data.length ≤ u32Max then
    if zlibCrc32 s.crc data ≤ u32Max then
      some ⟨zlibCrc32 s.crc data⟩
    else none
  else none

/-- `u32::to_be_bytes`: the four bytes of a 32-bit value, big-endian. -/
def u32ToBeBytes (v : Nat) : Bytes :=
  [v / 2 ^ 24 % 256, v / 2 ^ 16 % 256, v / 2 ^ 8 % 256, v % 256]

/-- `CRC32::finish` from `src/crc32.rs`: return the big-endian bytes of
the checksum and reset the state (`self.reset()` sets `crc = 0`). -/
def CRC32.finish (s : CRC32) : Bytes × CRC32 :=
  (u32ToBeBytes s.crc, ⟨0⟩)

/-- Fold a sequence of `CRC32::update` calls (propagating a panic). -/
def CRC32.updateList (s : Option CRC32) (chunks : List Bytes) : Option CRC32 :=
  chunks.foldl (fun acc c => acc.bind (fun t => t.update c)) s

/-- Digest obtained by feeding `chunks` one `update` call at a time into a
fresh `CRC32` and then calling `finish`. -/
def CRC32.digestOfChunks (chunks : List Bytes) : Option Bytes :=
  (CRC32.updateList (some CRC32.new) chunks).map (fun s => s.finish.1)

/-- State of the `SHA256` digest from `src/sha256.rs`.  The OpenSSL
`EVP_MD_CTX` is modelled by the bytes fed with `EVP_DigestUpdate` since
the last `EVP_DigestInit`; `new` runs `reset`, giving an empty buffer. -/
structure SHA256 where
  buf : Bytes
deriving DecidableEq

/-- `SHA256::new` from `src/sha256.rs`. -/
def SHA256.new : SHA256 := ⟨[]⟩

/-- `SHA256::update` from `src/sha256.rs`: `EVP_DigestUpdate` appends
`data` to the context. -/
def SHA256.update (s : SHA256) (data : Bytes) : SHA256 :=
  ⟨s.buf ++ data⟩

/-- `SHA256::finish` from `src/sha256.rs`: `EVP_DigestFinal` applies the
trusted SHA-256 mathematics `H` to the accumulated bytes, then
`self.reset()` re-initialises the context in place. -/
def SHA256.finish (H : Bytes → Bytes) (s : SHA256) : Bytes × SHA256 :=
  (H s.buf, ⟨[]⟩)

/-- Digest obtained by feeding `chunks` one `update` call at a time into a
fresh `SHA256` and then calling `finish`. -/
def SHA256.digestOfChunks (H : Bytes → Bytes) (chunks : List Bytes) : Bytes :=
  (SHA256.finish H (chunks.foldl SHA256.update SHA256.new)).1

/-- State of the `SHA512` digest from `src/sha512.rs` (same EVP context
discipline as `SHA256`). -/
structure SHA512 where
  buf : Bytes
deriving DecidableEq

/-- `SHA512::new` from `src/sha512.rs`. -/
def SHA512.new : SHA512 := ⟨[]⟩

/-- `SHA512::update` from `src/sha512.rs`. -/
def SHA512.update (s : SHA512) (data : Bytes) : SHA512 :=
  ⟨s.buf ++ data⟩

/-- `SHA512::finish` from `src/sha512.rs`: finalize, then reset in place. -/
def SHA512.finish (H : Bytes → Bytes) (s : SHA512) : Bytes × SHA512 :=
  (H s.buf, ⟨[]⟩)

/-- Digest of a chunk sequence on a fresh `SHA512`. -/
def SHA512.digestOfChunks (H : Bytes → Bytes) (chunks : List Bytes) : Bytes :=
  (SHA512.finish H (chunks.foldl SHA512.update SHA512.new)).1

/-- State of the `RMD160` digest from `src/rmd160.rs` (same EVP context
discipline as `SHA256`). -/
structure RMD160 where
  buf : Bytes
deriving DecidableEq

/-- `RMD160::new` from `src/rmd160.rs`. -/
def RMD160.new : RMD160 := ⟨[]⟩

/-- `RMD160::update` from `src/rmd160.rs`. -/
def RMD160.update (s : RMD160) (data : Bytes) : RMD160 :=
  ⟨s.buf ++ data⟩

/-- `RMD160::finish` from `src/rmd160.rs`: finalize, then reset in place. -/
def RMD160.finish (H : Bytes → Bytes) (s : RMD160) : Bytes × RMD160 :=
  (H s.buf, ⟨[]⟩)

/-- Digest of a chunk sequence on a fresh `RMD160`. -/
def RMD160.digestOfChunks (H : Bytes → Bytes) (chunks : List Bytes) : Bytes :=
  (RMD160.finish H (chunks.foldl RMD160.update RMD160.new)).1

/-- State of the exported `MD5` type from `src/md5.rs`.  Field `ctx` is
the OpenSSL context pointer: `some buf` while live (holding the bytes
accumulated since `EVP_DigestInit`), `none` once `digest()` has freed it
and set it to `null_mut()`.  Field `cached` is the struct's `digest`
field, initialised to sixteen zero bytes and overwritten by `digest()`. -/
structure MD5 where
  ctx : Option Bytes
  cached : Bytes
deriving DecidableEq

/-- `MD5::new` from `src/md5.rs`: live context, zeroed digest field. -/
def MD5.new : MD5 := ⟨some [], List.replicate 16 0⟩

/-- `MD5::update` from `src/md5.rs`: `EVP_DigestUpdate` runs only under
the `!self.ctx.is_null()` guard; with a freed context the call does
nothing. -/
def MD5.update (s : MD5) (data : Bytes) : MD5 :=
  match s.ctx with
  | some buf => ⟨some (buf ++ data), s.cached⟩
  | none => s

/-- `MD5::digest` from `src/md5.rs`: with a live context it finalizes
(`EVP_DigestFinal`, modelled by the trusted MD5 mathematics `H`), stores
the result in the `digest` field, frees the context and nulls the
pointer; with a freed context it simply returns the stored result. -/
def MD5.digest (H : Bytes → Bytes) (s : MD5) : Bytes × MD5 :=
  match s.ctx with
  | some buf => (H buf, ⟨none, H buf⟩)
  | none => (s.cached, s)

/-- Digest of a chunk sequence on a fresh `MD5`. -/
def MD5.digestOfChunks (H : Bytes → Bytes) (chunks : List Bytes) : Bytes :=
  (MD5.digest H (chunks.foldl MD5.update MD5.new)).1

/-- The internal `Message` enum of `src/background.rs` (and its textual
copies in `src/md5.rs` and `src/digest/*.rs`): `Append(Arc<[u8]>)` or
`Finish`. -/
inductive Message where
  | append (data : Bytes)
  | finish
deriving DecidableEq

/-- Capacity of the bounded request channel: `Background::new` creates it
with `mpsc::sync_channel(4)`. -/
def requestChannelCapacity : Nat := 4

/-- Timeout, in seconds, of `Background::finish`'s wait on the response
channel: `Duration::new(5, 0)`. -/
def finishTimeoutSecs : Nat := 5

/-- The worker loop `Background::background` from `src/background.rs`,
run against the FIFO sequence of messages received on the request
channel before the channel closes.  `upd`/`fin` are the `Digest`
implementor's `update`/`finish` methods; the returned list is the FIFO
sequence of values sent on the response channel (`Append` updates the
digest, `Finish` finishes it and sends the result, channel closure ends
the loop). -/
def backgroundRun {D : Type} (upd : D → Bytes → D) (fin : D → Bytes × D)
    (d : D) : List Message → List Bytes
  | [] => []
  | Message.append data :: rest => backgroundRun upd fin (upd d data) rest
  | Message.finish :: rest => (fin d).1 :: backgroundRun upd fin (fin d).2 rest

/-- Specification helper: the data appended between consecutive `Finish`
messages.  `segmentsFrom acc msgs` lists, for each `Finish` in `msgs`,
the concatenation of `acc` with every `Append` payload sent since the
previous `Finish`. -/
def segmentsFrom (acc : Bytes) : List Message → List Bytes
  | [] => []
  | Message.append data :: rest => segmentsFrom (acc ++ data) rest
  | Message.finish :: rest => acc :: segmentsFrom [] rest

/-- `Background::finish` from `src/background.rs`: send `Finish` on the
request channel (`expect` panics when the worker thread has died, i.e.
`sendOk = false`), then wait on the response channel for at most
`finishTimeoutSecs`; `response = none` models `recv_timeout` expiring,
which the second `expect` turns into a panic. -/
def Background.finish (sendOk : Bool) (response : Option Bytes) :
    Except String Bytes :=
  if sendOk then
    match response with
    | some r => Except.ok r
    | none => Except.error "unable to retrieve digest value"
  else Except.error "unexpected error finishing digest"

/-- State of the worker thread of `src/background.rs`: the requests still
queued, whether the request channel has been closed (every `Sender`
dropped), the digest instance owned by the thread, the responses sent so
far, and whether the loop has exited. -/
structure WorkerState (D : Type) where
  queue : List Message
  closed : Bool
  dg : D
  sent : List Bytes
  finished : Bool

/-- One iteration of the `loop` in `Background::background`: `recv()`
yields the next queued message (processed as in `backgroundRun`); with
an empty queue and a closed channel it yields `Err`, and the loop
breaks. -/
def workerStep {D : Type} (upd : D → Bytes → D) (fin : D → Bytes × D)
    (s : WorkerState D) : WorkerState D :=
  if s.finished then s
  else
    match s.queue with
    | Message.append data :: rest =>
        { s with queue := rest, dg := upd s.dg data }
    | Message.finish :: rest =>
        { s with queue := rest, sent := s.sent ++ [(fin s.dg).1],
                 dg := (fin s.dg).2 }
    | [] => if s.closed then { s with finished := true } else s

/-- Worker state right after the `Background` handle is dropped: dropping
the handle drops the only `SyncSender`, so the request channel is closed
and only the already-queued messages remain to be received. -/
def droppedWorkerState {D : Type} (msgs : List Message) (d : D) :
    WorkerState D :=
  ⟨msgs, true, d, [], false⟩

/-- The worker loop `background_md5` from `src/md5.rs`: like
`backgroundRun`, but on `Finish` it calls `md5.digest()` and then
replaces the instance with `MD5::new()` (`md5 = MD5::new();`) before
sending the result back. -/
def backgroundMD5Run (H : Bytes → Bytes) (m : MD5) :
    List Message → List Bytes
  | [] => []
  | Message.append data :: rest => backgroundMD5Run H (m.update data) rest
  | Message.finish :: rest =>
      (MD5.digest H m).1 :: backgroundMD5Run H MD5.new rest

/-- The `DigestData` tagged union from `src/lib.rs`.  Each variant holds
the fixed-size result array of its algorithm (CRC32: 4 bytes, MD5: 16,
SHA-256: 32, SHA-512: 64, RIPEMD-160: 20); the payloads are modelled as
byte lists with the length tracked by `DigestData.wf`. -/
inductive DigestData where
  | CRC32 (bytes : Bytes)
  | MD5 (bytes : Bytes)
  | SHA256 (bytes : Bytes)
  | SHA512 (bytes : Bytes)
  | RMD160 (bytes : Bytes)
deriving DecidableEq

/-- Well-formedness of a `DigestData` payload: the Rust arrays have the
fixed per-algorithm sizes `[u8; 4]`, `[u8; 16]`, `[u8; 32]`, `[u8; 64]`,
`[u8; 20]`, with entries below 256. -/
def DigestData.wf : DigestData → Prop
  | DigestData.CRC32 b => b.length = 4
  | DigestData.MD5 b => b.length = 16
  | DigestData.SHA256 b => b.length = 32
  | DigestData.SHA512 b => b.length = 64
  | DigestData.RMD160 b => b.length = 20

/-- `impl PartialEq for DigestData` from `src/lib.rs`: same variant and
equal byte arrays; different variants are never equal. -/
def DigestData.eq : DigestData → DigestData → Bool
  | DigestData.CRC32 l, DigestData.CRC32 r => l == r
  | DigestData.MD5 l, DigestData.MD5 r => l == r
  | DigestData.SHA256 l, DigestData.SHA256 r => l == r
  | DigestData.SHA512 l, DigestData.SHA512 r => l == r
  | DigestData.RMD160 l, DigestData.RMD160 r => l == r
  | _, _ => false

/-- `Nat.digitChar` maps `0`–`15` to `'0'`–`'9'`, `'a'`–`'f'`; it is how
we model Rust's lowercase `{:02x}`/`{:08x}` hex formatting. -/
def byteHex (b : Nat) : List Char :=
  [Nat.digitChar (b / 16 % 16), Nat.digitChar (b % 16)]

/-- `format_bytes` from `src/lib.rs` (also `src/digest/mod.rs`): each
byte printed as two lowercase hex digits, no delimiter. -/
def format_bytes (bytes : Bytes) : List Char :=
  (bytes.map byteHex).flatten

/-- `impl Display for DigestData` from `src/lib.rs`: every variant is
rendered with `format_bytes`. -/
def DigestData.display : DigestData → List Char
  | DigestData.CRC32 b => format_bytes b
  | DigestData.MD5 b => format_bytes b
  | DigestData.SHA256 b => format_bytes b
  | DigestData.SHA512 b => format_bytes b
  | DigestData.RMD160 b => format_bytes b

/-- Rendered length each algorithm must produce: 8 characters for CRC32,
32 for MD5, 64 for SHA-256, 128 for SHA-512, 40 for RIPEMD-160. -/
def DigestData.expectedDisplayLength : DigestData → Nat
  | DigestData.CRC32 _ => 8
  | DigestData.MD5 _ => 32
  | DigestData.SHA256 _ => 64
  | DigestData.SHA512 _ => 128
  | DigestData.RMD160 _ => 40

/-- The ten decimal digit characters. -/
def decDigitChars : List Char :=
  ['0', '1', '2', '3', '4', '5', '6', '7', '8', '9']

/-- The six lowercase hex letter characters. -/
def lowerHexLetterChars : List Char :=
  ['a', 'b', 'c', 'd', 'e', 'f']

/-- The sixteen lowercase hexadecimal digit characters. -/
def lowerHexDigits : List Char :=
  decDigitChars ++ lowerHexLetterChars

end Checksum

namespace Checksum.digest

/-- The earlier-generation `Digest` tagged union from
`src/digest/mod.rs`; its `CRC32` variant holds the native `u32` value
rather than a byte array. -/
inductive Digest where
  | CRC32 (v : Nat)
  | MD5 (bytes : Bytes)
  | SHA256 (bytes : Bytes)
  | SHA512 (bytes : Bytes)
  | RMD160 (bytes : Bytes)
deriving DecidableEq

/-- `impl PartialEq for Digest` from `src/digest/mod.rs`, transcribed
exactly: the `SHA512` arm compares `left[..31] == right[..31] &&
left[32..] == right[32..]`, i.e. the first 31 bytes and the bytes from
index 32 on. -/
def Digest.eq : Digest → Digest → Bool
  | Digest.CRC32 l, Digest.CRC32 r => l == r
  | Digest.MD5 l, Digest.MD5 r => l == r
  | Digest.SHA256 l, Digest.SHA256 r => l == r
  | Digest.SHA512 l, Digest.SHA512 r =>
      (l.take 31 == r.take 31) && (l.drop 32 == r.drop 32)
  | Digest.RMD160 l, Digest.RMD160 r => l == r
  | _, _ => false

/-- `format_u32` from `src/digest/mod.rs`: `write!(f, "{:08x}", value)`,
eight lowercase hex digits of the `u32`, most significant first. -/
def format_u32 (v : Nat) : List Char :=
  [Nat.digitChar (v / 16 ^ 7 % 16), Nat.digitChar (v / 16 ^ 6 % 16),
   Nat.digitChar (v / 16 ^ 5 % 16), Nat.digitChar (v / 16 ^ 4 % 16),
   Nat.digitChar (v / 16 ^ 3 % 16), Nat.digitChar (v / 16 ^ 2 % 16),
   Nat.digitChar (v / 16 % 16), Nat.digitChar (v % 16)]

/-- Length actually handed to zlib by `background_crc32` in
`src/digest/crc32.rs`: `let len = data.len() as u32;` — the `usize`
byte count reduced modulo `2 ^ 32`. -/
def background_crc32_len (data : Bytes) : Nat :=
  data.length % 2 ^ 32

/-- The `Append` arm of `background_crc32` in `src/digest/crc32.rs`:
zlib's `crc32` is called with the truncated length, so only the first
`background_crc32_len data` bytes of the chunk are processed. -/
def background_crc32_append (crc : Nat) (data : Bytes) : Nat :=
  zlibCrc32 crc (data.take (background_crc32_len data))

end Checksum.digest

namespace Checksum

theorem xor_cancel_mask (x m : Nat) : x ^^^ m ^^^ m = x := by
  rw [Nat.xor_assoc, Nat.xor_self, Nat.xor_zero]

theorem zlibCrc32_nil (c : Nat) : zlibCrc32 c [] = c := by
  simp [zlibCrc32, xor_cancel_mask]

theorem zlibCrc32_append (c : Nat) (a b : Bytes) :
    zlibCrc32 (zlibCrc32 c a) b = zlibCrc32 c (a ++ b) := by
  simp [zlibCrc32, List.foldl_append, xor_cancel_mask]

theorem crcBitStep_lt (c : Nat) (h : c < 2 ^ 32) : crcBitStep c < 2 ^ 32 := by
  unfold crcBitStep
  have hdiv : c / 2 < 2 ^ 32 := lt_of_le_of_lt (Nat.div_le_self c 2) h
  split
  · exact Nat.xor_lt_two_pow hdiv (by norm_num [crcPoly])
  · exact hdiv

theorem crcBitStep_iter_lt (n : Nat) (c : Nat) (h : c < 2 ^ 32) :
    crcBitStep^[n] c < 2 ^ 32 := by
  induction n generalizing c with
  | zero => simpa using h
  | succ k ih =>
      rw [Function.iterate_succ_apply]
      exact ih _ (crcBitStep_lt c h)

theorem crcByteStep_lt (c b : Nat) (h : c < 2 ^ 32) :
    crcByteStep c b < 2 ^ 32 := by
  unfold crcByteStep
  refine crcBitStep_iter_lt 8 _ ?_
  exact Nat.xor_lt_two_pow h (lt_of_lt_of_le (Nat.mod_lt b (by norm_num)) (by norm_num))

theorem crc_foldl_lt (buf : Bytes) (c : Nat) (h : c < 2 ^ 32) :
    buf.foldl crcByteStep c < 2 ^ 32 := by
  induction buf generalizing c with
  | nil => simpa using h
  | cons b rest ih =>
      simpa using ih (crcByteStep c b) (crcByteStep_lt c b h)

theorem zlibCrc32_lt (c : Nat) (buf : Bytes) (h : c < 2 ^ 32) :
    zlibCrc32 c buf < 2 ^ 32 := by
  unfold zlibCrc32
  refine Nat.xor_lt_two_pow ?_ (by norm_num)
  exact crc_foldl_lt buf _ (Nat.xor_lt_two_pow h (by norm_num))

theorem CRC32.update_ok (s : CRC32) (data : Bytes)
    (hs : s.crc < 2 ^ 32) (hlen : data.length ≤ u32Max) :
    s.update data = some ⟨zlibCrc32 s.crc data⟩ := by
  have hc : zlibCrc32 s.crc data < 2 ^ 32 := zlibCrc32_lt s.crc data hs
  have hle : zlibCrc32 s.crc data ≤ u32Max := by
    unfold u32Max; omega
  simp [CRC32.update, hlen, hle]

theorem CRC32.updateList_ok (chunks : List Bytes) (c : Nat)
    (hc : c < 2 ^ 32) (h : ∀ p ∈ chunks, p.length ≤ u32Max) :
    CRC32.updateList (some ⟨c⟩) chunks = some ⟨zlibCrc32 c chunks.flatten⟩ := by
  induction chunks generalizing c with
  | nil => simp [CRC32.updateList, zlibCrc32_nil]
  | cons p rest ih =>
      have hp : p.length ≤ u32Max := h p (List.mem_cons_self p rest)
      have hrest : ∀ q ∈ rest, q.length ≤ u32Max :=
        fun q hq => h q (List.mem_cons_of_mem p hq)
      have hstep := CRC32.update_ok ⟨c⟩ p hc hp
      have hc' : zlibCrc32 c p < 2 ^ 32 := zlibCrc32_lt c p hc
      calc CRC32.updateList (some ⟨c⟩) (p :: rest)
          = CRC32.updateList ((⟨c⟩ : CRC32).update p) rest := by
            simp [CRC32.updateList]
        _ = CRC32.updateList (some ⟨zlibCrc32 c p⟩) rest := by rw [hstep]
        _ = some ⟨zlibCrc32 (zlibCrc32 c p) rest.flatten⟩ := ih _ hc' hrest
        _ = some ⟨zlibCrc32 c (p :: rest).flatten⟩ := by
            rw [zlibCrc32_append]
            simp

theorem length_le_flatten_of_mem (parts : List Bytes) (p : Bytes)
    (hp : p ∈ parts) : p.length ≤ parts.flatten.length := by
  induction parts with
  | nil => cases hp
  | cons q rest ih =>
      rcases List.mem_cons.mp hp with h | h
      · subst h; simp
      · have := ih h
        simp only [List.flatten_cons, List.length_append]
        omega

theorem sha256_foldl_update (chunks : List Bytes) (buf : Bytes) :
    chunks.foldl SHA256.update ⟨buf⟩ = ⟨buf ++ chunks.flatten⟩ := by
  induction chunks generalizing buf with
  | nil => simp
  | cons c rest ih => simp [SHA256.update, ih]

theorem sha512_foldl_update (chunks : List Bytes) (buf : Bytes) :
    chunks.foldl SHA512.update ⟨buf⟩ = ⟨buf ++ chunks.flatten⟩ := by
  induction chunks generalizing buf with
  | nil => simp
  | cons c rest ih => simp [SHA512.update, ih]

theorem rmd160_foldl_update (chunks : List Bytes) (buf : Bytes) :
    chunks.foldl RMD160.update ⟨buf⟩ = ⟨buf ++ chunks.flatten⟩ := by
  induction chunks generalizing buf with
  | nil => simp
  | cons c rest ih => simp [RMD160.update, ih]

theorem md5_foldl_update (chunks : List Bytes) (buf cached : Bytes) :
    chunks.foldl MD5.update ⟨some buf, cached⟩
      = ⟨some (buf ++ chunks.flatten), cached⟩ := by
  induction chunks generalizing buf with
  | nil => simp
  | cons c rest ih => simp [MD5.update, ih]

theorem md5_foldl_update_dead (chunks : List Bytes) (cached : Bytes) :
    chunks.foldl MD5.update ⟨none, cached⟩ = ⟨none, cached⟩ := by
  induction chunks with
  | nil => rfl
  | cons c rest ih => simpa [MD5.update] using ih

theorem crc32_digestOfChunks_eq (chunks : List Bytes)
    (h : ∀ p ∈ chunks, p.length ≤ u32Max) :
    CRC32.digestOfChunks chunks
      = some (u32ToBeBytes (zlibCrc32 0 chunks.flatten)) := by
  have h0 : (0 : Nat) < 2 ^ 32 := by norm_num
  rw [CRC32.digestOfChunks, CRC32.new, CRC32.updateList_ok chunks 0 h0 h]
  simp [CRC32.finish]

/-- C1: for every digest algorithm in the core (CRC32, MD5, SHA-256,
SHA-512, RIPEMD-160), every byte sequence `S` (of a length a single
`update` accepts), and every partition of `S` into consecutive chunks,
feeding the chunks one `update` call at a time into a fresh instance and
then calling `finish` yields the same result as one `update(S)` followed
by `finish` on a fresh instance. -/
theorem chunk_invariance (parts : List Bytes) (S : Bytes)
    (hS : parts.flatten = S) (hlen : S.length ≤ u32Max)
    (H16 H256 H512 H160 : Bytes → Bytes) :
    CRC32.digestOfChunks parts = CRC32.digestOfChunks [S]
    ∧ MD5.digestOfChunks H16 parts = MD5.digestOfChunks H16 [S]
    ∧ SHA256.digestOfChunks H256 parts = SHA256.digestOfChunks H256 [S]
    ∧ SHA512.digestOfChunks H512 parts = SHA512.digestOfChunks H512 [S]
    ∧ RMD160.digestOfChunks H160 parts = RMD160.digestOfChunks H160 [S] := by
  subst hS
  have hparts : ∀ p ∈ parts, p.length ≤ u32Max := by
    intro p hp
    exact le_trans (length_le_flatten_of_mem parts p hp) hlen
  have hsingle : ∀ p ∈ [parts.flatten], p.length ≤ u32Max := by
    intro p hp
    rcases List.mem_singleton.mp hp with rfl
    exact hlen
  refine ⟨?_, ?_, ?_, ?_, ?_⟩
  · rw [crc32_digestOfChunks_eq parts hparts,
        crc32_digestOfChunks_eq [parts.flatten] hsingle]
    simp
  · simp [MD5.digestOfChunks, MD5.new, md5_foldl_update, MD5.digest,
          MD5.update]
  · simp [SHA256.digestOfChunks, SHA256.new, sha256_foldl_update,
          SHA256.finish, SHA256.update]
  · simp [SHA512.digestOfChunks, SHA512.new, sha512_foldl_update,
          SHA512.finish, SHA512.update]
  · simp [RMD160.digestOfChunks, RMD160.new, rmd160_foldl_update,
          RMD160.finish, RMD160.update]

/-- Concrete instance of `chunk_invariance`: splitting `[1, 2, 3]` as
`[1, 2]` then `[3]` gives the same digests as the single call. -/
theorem chunk_invariance_witness :
    ([[1, 2], [3]] : List Bytes).flatten = [1, 2, 3]
    ∧ ([1, 2, 3] : Bytes).length ≤ u32Max
    ∧ (CRC32.digestOfChunks [[1, 2], [3]] = CRC32.digestOfChunks [[1, 2, 3]]
       ∧ MD5.digestOfChunks id [[1, 2], [3]] = MD5.digestOfChunks id [[1, 2, 3]]
       ∧ SHA256.digestOfChunks id [[1, 2], [3]]
           = SHA256.digestOfChunks id [[1, 2, 3]]
       ∧ SHA512.digestOfChunks id [[1, 2], [3]]
           = SHA512.digestOfChunks id [[1, 2, 3]]
       ∧ RMD160.digestOfChunks id [[1, 2], [3]]
           = RMD160.digestOfChunks id [[1, 2, 3]]) :=
  ⟨by decide, by decide,
   chunk_invariance [[1, 2], [3]] [1, 2, 3] (by decide) (by decide)
     id id id id⟩

/-- C3: `finish` returns the digest of exactly the bytes passed to
`update` since creation, leaves the instance equal to a freshly created
one (so the same holds between consecutive `finish` calls), and with no
intervening `update` two consecutive `finish` calls both return the
algorithm's digest of the empty input.  This covers the four adapters
whose digest trait method is `finish` (`CRC32`, `SHA256`, `SHA512`,
`RMD160`); the exported `MD5` type's `digest()` method deliberately
freezes the instance instead and is treated separately. -/
theorem finish_returns_exact_digest_then_resets (chunks : List Bytes)
    (S : Bytes) (hS : chunks.flatten = S) (hlen : S.length ≤ u32Max)
    (H256 H512 H160 : Bytes → Bytes) :
    (CRC32.digestOfChunks chunks = some (u32ToBeBytes (zlibCrc32 0 S))
     ∧ SHA256.digestOfChunks H256 chunks = H256 S
     ∧ SHA512.digestOfChunks H512 chunks = H512 S
     ∧ RMD160.digestOfChunks H160 chunks = H160 S)
    ∧ ((∀ s : CRC32, s.finish.2 = CRC32.new)
     ∧ (∀ s : SHA256, (SHA256.finish H256 s).2 = SHA256.new)
     ∧ (∀ s : SHA512, (SHA512.finish H512 s).2 = SHA512.new)
     ∧ (∀ s : RMD160, (RMD160.finish H160 s).2 = RMD160.new))
    ∧ (CRC32.new.finish.1 = u32ToBeBytes (zlibCrc32 0 [])
     ∧ (∀ s : CRC32, s.finish.2.finish.1 = u32ToBeBytes (zlibCrc32 0 []))
     ∧ (SHA256.finish H256 SHA256.new).1 = H256 []
     ∧ (∀ s : SHA256,
          (SHA256.finish H256 (SHA256.finish H256 s).2).1 = H256 [])
     ∧ (SHA512.finish H512 SHA512.new).1 = H512 []
     ∧ (∀ s : SHA512,
          (SHA512.finish H512 (SHA512.finish H512 s).2).1 = H512 [])
     ∧ (RMD160.finish H160 RMD160.new).1 = H160 []
     ∧ (∀ s : RMD160,
          (RMD160.finish H160 (RMD160.finish H160 s).2).1 = H160 [])) := by
  subst hS
  have hparts : ∀ p ∈ chunks, p.length ≤ u32Max := by
    intro p hp
    exact le_trans (length_le_flatten_of_mem chunks p hp) hlen
  refine ⟨⟨?_, ?_, ?_, ?_⟩, ⟨?_, ?_, ?_, ?_⟩, ?_⟩
  · exact crc32_digestOfChunks_eq chunks hparts
  · simp [SHA256.digestOfChunks, SHA256.new, sha256_foldl_update,
          SHA256.finish]
  · simp [SHA512.digestOfChunks, SHA512.new, sha512_foldl_update,
          SHA512.finish]
  · simp [RMD160.digestOfChunks, RMD160.new, rmd160_foldl_update,
          RMD160.finish]
  · intro s; rfl
  · intro s; rfl
  · intro s; rfl
  · intro s; rfl
  · refine ⟨?_, fun s => ?_, rfl, fun s => rfl, rfl, fun s => rfl,
            rfl, fun s => rfl⟩
    · simp [CRC32.finish, CRC32.new, zlibCrc32_nil]
    · simp [CRC32.finish, zlibCrc32_nil]

/-- Concrete instance of `finish_returns_exact_digest_then_resets` at
the split `[1]`, `[2]` of `[1, 2]`. -/
theorem finish_returns_exact_digest_then_resets_witness :
    ([[1], [2]] : List Bytes).flatten = [1, 2]
    ∧ ([1, 2] : Bytes).length ≤ u32Max
    ∧ SHA256.digestOfChunks id [[1], [2]] = id [1, 2] :=
  ⟨by decide, by decide,
   (finish_returns_exact_digest_then_resets [[1], [2]] [1, 2] (by decide)
      (by decide) id id id).1.2.1⟩

theorem backgroundRun_sha256 (H : Bytes → Bytes) (msgs : List Message)
    (acc : Bytes) :
    backgroundRun SHA256.update (SHA256.finish H) ⟨acc⟩ msgs
      = (segmentsFrom acc msgs).map H := by
  induction msgs generalizing acc with
  | nil => rfl
  | cons m rest ih =>
      cases m with
      | append data =>
          simp [backgroundRun, segmentsFrom, SHA256.update, ih]
      | finish =>
          simp [backgroundRun, segmentsFrom, SHA256.finish, ih]

theorem backgroundMD5Run_segments (H : Bytes → Bytes) (msgs : List Message)
    (acc cached : Bytes) :
    backgroundMD5Run H ⟨some acc, cached⟩ msgs
      = (segmentsFrom acc msgs).map H := by
  induction msgs generalizing acc cached with
  | nil => rfl
  | cons m rest ih =>
      cases m with
      | append data =>
          simp [backgroundMD5Run, segmentsFrom, MD5.update, ih]
      | finish =>
          simp [backgroundMD5Run, segmentsFrom, MD5.digest, MD5.new, ih]

/-- C2: within one worker the request queue has capacity 4
(`mpsc::sync_channel(4)`) and processing is strictly FIFO: run against
any FIFO message sequence — in particular one with more than 4 `Append`
messages before a `Finish` — the worker loop of `src/background.rs`
(instantiated at the buffering digest model, here `SHA256`) and the
worker loop of `src/md5.rs` both produce, as the N-th response, exactly
the digest of the data appended between the (N-1)-th and N-th `Finish`
(or since creation for N = 1), in request order. -/
theorem worker_fifo_bounded_queue (H : Bytes → Bytes)
    (msgs : List Message) :
    requestChannelCapacity = 4
    ∧ backgroundRun SHA256.update (SHA256.finish H) SHA256.new msgs
        = (segmentsFrom [] msgs).map H
    ∧ backgroundMD5Run H MD5.new msgs = (segmentsFrom [] msgs).map H :=
  ⟨rfl, backgroundRun_sha256 H msgs [],
   backgroundMD5Run_segments H msgs [] (List.replicate 16 0)⟩

theorem workerStep_iterate_finished {D : Type} (upd : D → Bytes → D)
    (fin : D → Bytes × D) (msgs : List Message) (d : D)
    (sent : List Bytes) :
    ((workerStep upd fin)^[msgs.length + 1]
        ⟨msgs, true, d, sent, false⟩).finished = true := by
  induction msgs generalizing d sent with
  | nil =>
      simp [workerStep]
  | cons m rest ih =>
      cases m with
      | append data =>
          rw [List.length_cons, Function.iterate_succ_apply]
          exact ih (upd d data) sent
      | finish =>
          rw [List.length_cons, Function.iterate_succ_apply]
          exact ih (fin d).2 (sent ++ [(fin d).1])

/-- C9: dropping the `Background` handle closes the request channel
(modelled by `droppedWorkerState`); from there the worker loop observes
channel closure after draining the finitely many queued messages and
terminates within `msgs.length + 1` receive iterations.  Conversely the
loop only ever exits by observing closure on an empty queue: this is the
only teardown path. -/
theorem worker_terminates_on_drop {D : Type} (upd : D → Bytes → D)
    (fin : D → Bytes × D) (msgs : List Message) (d : D) :
    ((workerStep upd fin)^[msgs.length + 1]
        (droppedWorkerState msgs d)).finished = true
    ∧ (∀ s : WorkerState D, (workerStep upd fin s).finished = true →
        s.finished = true ∨ (s.queue = [] ∧ s.closed = true)) := by
  constructor
  · exact workerStep_iterate_finished upd fin msgs d []
  · intro s h
    by_cases hf : s.finished = true
    · exact Or.inl hf
    · right
      rw [workerStep, if_neg hf] at h
      cases hq : s.queue with
      | nil =>
          rw [hq] at h
          by_cases hc : s.closed = true
          · exact ⟨hq ▸ rfl, hc⟩
          · rw [if_neg hc] at h
            exact absurd h hf
      | cons m rest =>
          rw [hq] at h
          cases m with
          | append data => simp at h; exact absurd h hf
          | finish => simp at h; exact absurd h hf

/-- Concrete instance of `worker_terminates_on_drop`: a worker over the
`SHA256` model with one queued `Finish` terminates in two iterations,
and a step that exits the loop does so on an empty, closed queue. -/
theorem worker_terminates_on_drop_witness :
    ((workerStep SHA256.update (SHA256.finish id))^[2]
        (droppedWorkerState [Message.finish] SHA256.new)).finished = true
    ∧ ((workerStep SHA256.update (SHA256.finish id))
        (⟨[], true, SHA256.new, [], false⟩ : WorkerState SHA256)).finished
          = true
    ∧ ((⟨[], true, SHA256.new, [], false⟩ : WorkerState SHA256).finished
          = true
       ∨ ((⟨[], true, SHA256.new, [], false⟩ :
            WorkerState SHA256).queue = []
          ∧ (⟨[], true, SHA256.new, [], false⟩ :
              WorkerState SHA256).closed = true)) :=
  ⟨(worker_terminates_on_drop SHA256.update (SHA256.finish id)
      [Message.finish] SHA256.new).1,
   rfl,
   (worker_terminates_on_drop SHA256.update (SHA256.finish id)
      [Message.finish] SHA256.new).2
     ⟨[], true, SHA256.new, [], false⟩ rfl⟩

/-- C8: `Background::finish` sends `Finish` and waits on the response
channel for at most `finishTimeoutSecs = 5` seconds; a failed send (the
worker thread has died) or an expired timeout makes the call fail
fatally (`expect` panic), and in exactly those cases — and no digest
value is ever returned then. -/
theorem background_finish_fatal (sendOk : Bool)
    (response : Option Bytes) :
    finishTimeoutSecs = 5
    ∧ ((∃ e, Background.finish sendOk response = Except.error e)
        ↔ sendOk = false ∨ response = none)
    ∧ (∀ r : Bytes, sendOk = false ∨ response = none →
        Background.finish sendOk response ≠ Except.ok r) := by
  refine ⟨rfl, ?_, ?_⟩
  · cases sendOk <;> cases response <;>
      simp [Background.finish]
  · intro r h
    cases sendOk <;> cases response <;>
      simp_all [Background.finish]

/-- Concrete instance of `background_finish_fatal`: with the worker
thread dead the call cannot produce the empty digest value. -/
theorem background_finish_fatal_witness :
    (false = false ∨ (none : Option Bytes) = none)
    ∧ Background.finish false none ≠ Except.ok [] :=
  ⟨Or.inl rfl,
   (background_finish_fatal false none).2.2 [] (Or.inl rfl)⟩

/-- C10: once `digest()` has been called on an exported `MD5` instance
the context pointer is null and stays null, every later `update` call
leaves the state unchanged, and every later `digest()` call — after any
number of intervening `update` calls — returns the same cached 16-byte
result as the first call; the freed native context is never touched
again. -/
theorem md5_frozen_after_digest (H : Bytes → Bytes) (s : MD5)
    (laterChunks : List Bytes) :
    (MD5.digest H s).2.ctx = none
    ∧ (∀ data, MD5.update (MD5.digest H s).2 data = (MD5.digest H s).2)
    ∧ (MD5.digest H (laterChunks.foldl MD5.update (MD5.digest H s).2)).1
        = (MD5.digest H s).1 := by
  rcases s with ⟨ctx, cached⟩
  cases ctx with
  | none =>
      refine ⟨rfl, fun data => rfl, ?_⟩
      rw [show (MD5.digest H ⟨none, cached⟩).2 = ⟨none, cached⟩ from rfl,
          md5_foldl_update_dead]
  | some buf =>
      refine ⟨rfl, fun data => rfl, ?_⟩
      rw [show (MD5.digest H ⟨some buf, cached⟩).2 = ⟨none, H buf⟩ from rfl,
          md5_foldl_update_dead]
      rfl

/-- C4 counterexample: the exported `MD5` adapter does *not* re-initialize
its context in place on `digest()` and the instance is *not* reusable:
after one `digest()` call on a fresh instance, updating with `[1]` and
calling `digest()` again still returns the cached digest of the empty
input rather than the digest of `[1]` (taking, as a stand-in for the
trusted MD5 mathematics — which also separates these two inputs — the
function returning sixteen copies of the input length mod 256). -/
theorem md5_digest_not_reinit_counterexample :
    (MD5.digest (fun l => List.replicate 16 (l.length % 256)) MD5.new).2
        ≠ MD5.new
    ∧ (MD5.digest (fun l => List.replicate 16 (l.length % 256))
        (MD5.update
          (MD5.digest (fun l => List.replicate 16 (l.length % 256))
            MD5.new).2 [1])).1
      = List.replicate 16 0
    ∧ (fun l : Bytes => List.replicate 16 (l.length % 256)) [1]
        = List.replicate 16 1
    ∧ (List.replicate 16 0 : Bytes) ≠ List.replicate 16 1 := by
  refine ⟨?_, rfl, rfl, by decide⟩
  intro h
  exact Option.noConfusion (congrArg MD5.ctx h)

/-- C4 amended: the CRC32, SHA-256, SHA-512 and RIPEMD-160 adapters
finalize, capture the result, and re-initialize their context in place
(`finish` leaves the instance equal to a freshly constructed one, so it
is reusable without reconstruction); the exported `MD5` adapter instead
frees its context on the first `digest()` and caches the result, and
reusability is restored one level up: its background worker replaces the
instance with `MD5::new()` after every `Finish`. -/
theorem finish_reinitializes_in_place_amended
    (H256 H512 H160 H16 : Bytes → Bytes) :
    (∀ s : CRC32, s.finish.2 = CRC32.new)
    ∧ (∀ s : SHA256, (SHA256.finish H256 s).2 = SHA256.new)
    ∧ (∀ s : SHA512, (SHA512.finish H512 s).2 = SHA512.new)
    ∧ (∀ s : RMD160, (RMD160.finish H160 s).2 = RMD160.new)
    ∧ (∀ (s : MD5) (buf : Bytes), s.ctx = some buf →
        (MD5.digest H16 s).2 = ⟨none, H16 buf⟩)
    ∧ (∀ (m : MD5) (rest : List Message),
        backgroundMD5Run H16 m (Message.finish :: rest)
          = (MD5.digest H16 m).1 :: backgroundMD5Run H16 MD5.new rest) := by
  refine ⟨fun s => rfl, fun s => rfl, fun s => rfl, fun s => rfl,
          ?_, fun m rest => rfl⟩
  intro s buf h
  rcases s with ⟨ctx, cached⟩
  cases h
  rfl

/-- Concrete instance of `finish_reinitializes_in_place_amended`: a
fresh `MD5` has a live empty context, and `digest()` moves it to the
freed/cached state. -/
theorem finish_reinitializes_in_place_amended_witness :
    MD5.new.ctx = some []
    ∧ (MD5.digest id MD5.new).2 = (⟨none, id []⟩ : MD5) :=
  ⟨rfl,
   (finish_reinitializes_in_place_amended id id id id).2.2.2.2.1
     MD5.new [] rfl⟩

/-- C5: on a single over-long chunk the two CRC32 update paths disagree
with each other, and the older one silently truncates.  The current
`CRC32::update` (`src/crc32.rs`) rejects a `2 ^ 32`-byte chunk outright
(`try_into().expect` panic, modelled as `none`), as the claim demands;
but `background_crc32` (`src/digest/crc32.rs`) computes `data.len() as
u32 = 0` for the same chunk and hands zlib a zero length, silently
processing none of its bytes — equal to the CRC of the empty input
instead of failing fast. -/
theorem crc32_overflow_divergence :
    CRC32.update CRC32.new (List.replicate (2 ^ 32) 0) = none
    ∧ digest.background_crc32_len (List.replicate (2 ^ 32) 0) = 0
    ∧ digest.background_crc32_append 0 (List.replicate (2 ^ 32) 0)
        = zlibCrc32 0 []
    ∧ zlibCrc32 0 [] = 0 := by
  have hlen : (List.replicate (2 ^ 32) (0 : Nat)).length = 2 ^ 32 :=
    List.length_replicate (2 ^ 32) 0
  refine ⟨?_, ?_, ?_, by decide⟩
  · have hgt : ¬ (List.replicate (2 ^ 32) (0 : Nat)).length ≤ u32Max := by
      rw [hlen]; unfold u32Max; norm_num
    rw [CRC32.update, if_neg hgt]
  · rw [digest.background_crc32_len, hlen, Nat.mod_self]
  · rw [digest.background_crc32_append, digest.background_crc32_len,
        hlen, Nat.mod_self, List.take_zero]

/-- C6: the earlier-generation `Digest` equality (`src/digest/mod.rs`)
compares SHA-512 payloads as `left[..31] == right[..31] && left[32..] ==
right[32..]`, skipping the byte at index 31: two 64-byte SHA-512 values
that differ only there compare equal, contradicting the claim (and the
spec); the current `DigestData` equality (`src/lib.rs`) compares the
whole arrays and correctly distinguishes them. -/
theorem sha512_eq_skips_byte_31 :
    digest.Digest.eq
      (digest.Digest.SHA512 (List.replicate 64 0))
      (digest.Digest.SHA512
        (List.replicate 31 0 ++ 1 :: List.replicate 32 0)) = true
    ∧ (List.replicate 64 (0 : Nat)
        ≠ List.replicate 31 0 ++ 1 :: List.replicate 32 0)
    ∧ (List.replicate 31 (0 : Nat) ++ 1 :: List.replicate 32 0).length = 64
    ∧ ((List.replicate 64 (0 : Nat)).get? 31 = some 0
        ∧ (List.replicate 31 (0 : Nat) ++ 1 :: List.replicate 32 0).get? 31
            = some 1)
    ∧ DigestData.eq
      (DigestData.SHA512 (List.replicate 64 0))
      (DigestData.SHA512
        (List.replicate 31 0 ++ 1 :: List.replicate 32 0)) = false := by
  decide

theorem digitChar_mem_of_lt16 (d : Nat) (h : d < 16) :
    Nat.digitChar d ∈ lowerHexDigits := by
  interval_cases d <;> decide

theorem format_bytes_chars (bytes : Bytes) :
    ∀ c ∈ format_bytes bytes, c ∈ lowerHexDigits := by
  intro c hc
  rw [format_bytes, List.mem_flatten] at hc
  obtain ⟨l, hl, hcl⟩ := hc
  rw [List.mem_map] at hl
  obtain ⟨b, _, rfl⟩ := hl
  have h16 : (0 : Nat) < 16 := by norm_num
  rcases List.mem_pair.mp hcl with rfl | rfl
  · exact digitChar_mem_of_lt16 _ (Nat.mod_lt _ h16)
  · exact digitChar_mem_of_lt16 _ (Nat.mod_lt _ h16)

theorem format_bytes_length (bytes : Bytes) :
    (format_bytes bytes).length = 2 * bytes.length := by
  induction bytes with
  | nil => rfl
  | cons b rest ih =>
      show (byteHex b ++ format_bytes rest).length = 2 * (b :: rest).length
      rw [List.length_append, ih, List.length_cons]
      show 2 + 2 * rest.length = 2 * (rest.length + 1)
      omega

theorem format_u32_eq_be_bytes (v : Nat) :
    format_bytes (u32ToBeBytes v) = digest.format_u32 v := by
  simp [format_bytes, byteHex, u32ToBeBytes, digest.format_u32]
  repeat' apply And.intro
  all_goals exact congrArg Nat.digitChar (by omega)

/-- C7: every rendered `DigestData` consists only of lowercase hex digit
characters, two per result byte with no delimiter; on well-formed
payloads the rendered length is 8 for CRC32, 32 for MD5, 64 for SHA-256,
128 for SHA-512 and 40 for RIPEMD-160; and for every value the current
big-endian-byte rendering of a CRC32 (`format_bytes` over
`u32::to_be_bytes`) coincides with the legacy `{:08x}` rendering of the
native 32-bit integer (`format_u32` of `src/digest/mod.rs`). -/
theorem digestdata_hex_rendering :
    (∀ bytes : Bytes, ∀ c ∈ format_bytes bytes, c ∈ lowerHexDigits)
    ∧ (∀ d : DigestData, d.wf →
        d.display.length = d.expectedDisplayLength)
    ∧ (∀ v : Nat, format_bytes (u32ToBeBytes v) = digest.format_u32 v) := by
  refine ⟨format_bytes_chars, ?_, format_u32_eq_be_bytes⟩
  intro d hwf
  cases d <;>
    simp only [DigestData.display, DigestData.expectedDisplayLength,
               format_bytes_length, DigestData.wf] at hwf ⊢ <;>
    omega

/-- Concrete instance of `digestdata_hex_rendering`: a four-byte CRC32
payload renders to exactly eight characters. -/
theorem digestdata_hex_rendering_witness :
    (DigestData.CRC32 [0xde, 0xad, 0xbe, 0xef]).wf
    ∧ (DigestData.CRC32 [0xde, 0xad, 0xbe, 0xef]).display.length
        = (DigestData.CRC32 [0xde, 0xad, 0xbe, 0xef]).expectedDisplayLength :=
  ⟨rfl, digestdata_hex_rendering.2.1 (DigestData.CRC32 [0xde, 0xad, 0xbe, 0xef]) rfl⟩

end Checksum
